import Mathlib

/-!
Verification of the node4j object-graph-mapper core against its
natural-language specification.

The definitions below are a shallow embedding of the Python sources:
  * `src/node4j/query.py`   — the filter-expression tree `Q` and its compiler;
  * `src/node4j/db.py`      — the transaction scope and the atomic wrapper;
  * `src/node4j/properties.py` — the relationship access manager's connect;
  * `src/node4j/manager.py` — hydration of result records and update/delete.
Each definition's doc comment names the source function it embeds.  Pure
functions become Lean functions; the Python mutable parameter counter is
threaded as explicit state; fallible code returns `Except`; Python dicts
become association lists with Python's insertion-order update semantics.
-/

namespace Node4j

/-! ## Values of database records and query parameters

Scalar payloads are collapsed to strings: the compiler and the hydration
engine never inspect scalar payloads, only dict/list structure and
truthiness. -/

/-- A value as it appears in a database result record or a parameter map:
a scalar, Python `None`, a list, or a dict (association list, keys unique). -/
inductive Val : Type where
  | prim : String → Val
  | vnull : Val
  | vlist : List Val → Val
  | vobj : List (String × Val) → Val

/-- Python truthiness of a `Val`: `None`, empty strings, empty lists and
empty dicts are falsy, everything else truthy. -/
def Val.truthy : Val → Bool
  | .prim s => !(s == "")
  | .vnull => false
  | .vlist l => !l.isEmpty
  | .vobj l => !l.isEmpty

/-- Python `d.get(k)` on a dict modelled as an association list (keys are
unique in a Python dict, so the first match is the match). -/
def dGet (d : List (String × Val)) (k : String) : Option Val :=
  (d.find? (fun p => p.1 == k)).map (fun p => p.2)

/-! ## The filter-expression tree `Q` (src/node4j/query.py)

`Q.children` is a heterogeneous Python list holding `(key, value)` tuples
(leaf predicates, from `__init__` kwargs) and nested `Q` objects (added by
`_combine`); it is embedded as a list of a sum type. -/

/-- `QConnector` of query.py lines 7-9. -/
inductive QConnector : Type where
  | AND
  | OR
deriving DecidableEq

/-- `QConnector.value` (the string payload of the `str`-enum). -/
def QConnector.value : QConnector → String
  | .AND => "AND"
  | .OR => "OR"

/-- The `Q` object of query.py: `children` (leaf `(key, value)` pairs or
nested `Q` objects), `connector`, `negated` (query.py lines 15-18). -/
inductive Q (α : Type) : Type where
  | mk : List ((String × α) ⊕ Q α) → QConnector → Bool → Q α

/-- The `children` attribute of a `Q` object. -/
def Q.children {α : Type} : Q α → List ((String × α) ⊕ Q α)
  | .mk ch _ _ => ch

/-- The `connector` attribute of a `Q` object. -/
def Q.connector {α : Type} : Q α → QConnector
  | .mk _ conn _ => conn

/-- The `negated` attribute of a `Q` object. -/
def Q.negated {α : Type} : Q α → Bool
  | .mk _ _ neg => neg

/-- `Q(**kwargs)` (query.py lines 15-22): a fresh `Q` whose children are the
given `(key, value)` pairs, connector `AND`, not negated. -/
def Q.ofPairs {α : Type} (pairs : List (String × α)) : Q α :=
  .mk (pairs.map Sum.inl) .AND false

/-- The parameter name `f"p_{counter}"` of query.py line 44. -/
def pname (n : Nat) : String := "p_" ++ Nat.repr n

/-- Python `str.partition(sep)` restricted to its first and third components:
split at the FIRST occurrence of `sep`; when `sep` does not occur the whole
string is the first component and the suffix is empty.  `none` = no
occurrence, `some (before, after)` otherwise. -/
def findSplit (sep : List Char) : List Char → Option (List Char × List Char)
  | [] => none
  | c :: cs =>
    if sep.isPrefixOf (c :: cs) then some ([], (c :: cs).drop sep.length)
    else
      match findSplit sep cs with
      | some (pre, post) => some (c :: pre, post)
      | none => none

/-- `key.partition("__")` as used in `_compile_clause` (query.py line 70),
returning `(field, op_suffix)`. -/
def pyPartition (key : String) (sep : String) : String × String :=
  match findSplit sep.data key.data with
  | some (pre, post) => (⟨pre⟩, ⟨post⟩)
  | none => (key, "")

/-- The `operator_map` of `_compile_clause` (query.py lines 58-68). -/
def operatorMap : List (String × String) :=
  [("gt", ">"), ("gte", ">="), ("lt", "<"), ("lte", "<="), ("in", "IN"),
   ("contains", "CONTAINS"), ("startswith", "STARTS WITH"),
   ("endswith", "ENDS WITH"), ("ne", "<>")]

/-- `operator_map.get(op_suffix, "=")` (query.py line 71). -/
def opFor (suffix : String) : String :=
  match operatorMap.find? (fun p => p.1 == suffix) with
  | some p => p.2
  | none => "="

/-- `Q._compile_clause` (query.py lines 56-73): splits the key at the first
`"__"`, maps the suffix through the operator map (default equality) and
renders `f"{node_alias}.`{field}` {op} ${param_name}"`. -/
def compileClause (nodeAlias key paramName : String) : String :=
  let fs := pyPartition key "__"
  nodeAlias ++ ".`" ++ fs.1 ++ "` " ++ opFor fs.2 ++ " $" ++ paramName

/-- Python dict assignment `d[k] = v`: replace in place when the key exists,
append otherwise (insertion order preserved). -/
def setItem {α : Type} (d : List (String × α)) (k : String) (v : α) :
    List (String × α) :=
  if d.any (fun p => p.1 == k) then
    d.map (fun p => if p.1 == k then (k, v) else p)
  else d ++ [(k, v)]

/-- Python `d.update(e)`: assign every pair of `e` into `d` in order. -/
def dictUpdate {α : Type} (d e : List (String × α)) : List (String × α) :=
  e.foldl (fun acc p => setItem acc p.1 p.2) d

/-- Python `sep.join(parts)`. -/
def joinSep (sep : String) : List String → String
  | [] => ""
  | [p] => p
  | p :: rest => p ++ sep ++ joinSep sep rest

mutual

/-- The loop body of `Q.to_cypher` (query.py lines 29-48): fold over the
children accumulating `parts`, `params` and the shared mutable counter
`param_counter[0]`.  A leaf appends one compiled clause and registers one
freshly named parameter; a nested `Q` child is compiled recursively, its
fragment parenthesized and its parameters merged — but only when its
fragment is non-empty (query.py lines 33-38). -/
def compChildren {α : Type} (a : String) :
    List ((String × α) ⊕ Q α) → List String → List (String × α) → Nat →
    (List String × List (String × α)) × Nat
  | [], parts, params, c => ((parts, params), c)
  | .inl (k, v) :: rest, parts, params, c =>
      compChildren a rest (parts ++ [compileClause a k (pname c)])
        (setItem params (pname c) v) (c + 1)
  | .inr q :: rest, parts, params, c =>
      let r := toCypher q a c
      if r.1.1 = "" then compChildren a rest parts params r.2
      else
        compChildren a rest (parts ++ ["(" ++ r.1.1 ++ ")"])
          (dictUpdate params r.1.2) r.2

/-- `Q.to_cypher` (query.py lines 24-54): empty children compile to an empty
fragment and empty parameter map (the counter untouched); otherwise the
children's parts are joined with the connector and, when `negated`, the
whole fragment is wrapped in `NOT (...)`.  The threaded `Nat` is the shared
`param_counter[0]`. -/
def toCypher {α : Type} : Q α → String → Nat → (String × List (String × α)) × Nat
  | .mk children conn neg, a, c =>
    if children.isEmpty then (("", []), c)
    else
      let r := compChildren a children [] [] c
      let s := joinSep (" " ++ conn.value ++ " ") r.1.1
      ((if neg then "NOT (" ++ s ++ ")" else s, r.1.2), r.2)

end

mutual

/-- Number of leaf `(key, value)` children in a child list, nested `Q`
children included. -/
def leaves {α : Type} : List ((String × α) ⊕ Q α) → Nat
  | [] => 0
  | .inl _ :: rest => 1 + leaves rest
  | .inr q :: rest => leafCount q + leaves rest

/-- Number of leaf predicates anywhere in a `Q` tree. -/
def leafCount {α : Type} : Q α → Nat
  | .mk ch _ _ => leaves ch

end

/-- `Q._combine` (query.py lines 75-91): if `self` is empty return `other`,
if `other` is empty return `self`, otherwise a brand-new `Q` whose children
are the two operand objects.  (The `isinstance` guard raising `TypeError`
for a non-`Q` right operand is rendered unrepresentable by the types.) -/
def Q.combine {α : Type} (self other : Q α) (connector : QConnector) : Q α :=
  if self.children.isEmpty then other
  else if other.children.isEmpty then self
  else .mk [.inr self, .inr other] connector false

/-- `Q.__and__` (query.py lines 93-94). -/
def Q.qand {α : Type} (self other : Q α) : Q α := self.combine other .AND

/-- `Q.__or__` (query.py lines 96-97). -/
def Q.qor {α : Type} (self other : Q α) : Q α := self.combine other .OR

/-- `Q.__invert__` (query.py lines 99-105): a new `Q` with a copy of the
children list, the same connector and the negation flag flipped. -/
def Q.invert {α : Type} (self : Q α) : Q α :=
  .mk self.children self.connector (!self.negated)

/-! ## Object-identity model of `Q` (for the no-mutation / new-tree claims)

Python `Q` objects are mutable heap objects; `_combine` may return one of
its operands (the very same object) rather than allocate.  To state object
identity and the absence of mutation, `Q` objects are also modelled in an
explicit store: an object is a record of attributes, the store is the list
of allocated objects, an object's id is its index, and allocation appends.
A child of an object is either the id of a nested `Q` object (`Sum.inl`)
or a leaf `(key, value)` tuple (`Sum.inr`). -/

/-- One allocated `Q` object: its three attributes (query.py lines 15-18). -/
structure QObj (α : Type) where
  children : List (Nat ⊕ (String × α))
  connector : QConnector
  negated : Bool

/-- The heap of allocated `Q` objects; an id is an index into the list. -/
abbrev Store (α : Type) := List (QObj α)

/-- `Q._combine` (query.py lines 75-91) over the object store: `none` when an
id dangles; an empty `self` returns the id of `other` unchanged, an empty
`other` returns the id of `self` unchanged — no allocation, the store is
untouched — and only two non-empty operands allocate a new object whose
children reference both operand ids. -/
def combineS {α : Type} (s : Store α) (aId bId : Nat) (conn : QConnector) :
    Option (Store α × Nat) :=
  match s[aId]?, s[bId]? with
  | some a, some b =>
      if a.children.isEmpty then some (s, bId)
      else if b.children.isEmpty then some (s, aId)
      else some (s ++ [⟨[.inl aId, .inl bId], conn, false⟩], s.length)
  | _, _ => none

/-- `Q.__invert__` (query.py lines 99-105) over the object store: always
allocates a new object carrying a copy of the children list, the same
connector and the flipped negation flag; the operand is not modified. -/
def invertS {α : Type} (s : Store α) (aId : Nat) : Option (Store α × Nat) :=
  match s[aId]? with
  | some a => some (s ++ [⟨a.children, a.connector, !a.negated⟩], s.length)
  | none => none

/-! ## The transaction scope and the atomic wrapper (src/node4j/db.py)

`AsyncDatabase.transaction` (db.py lines 75-107) is an async context
manager over the context variable `_current_transaction`; it is embedded as
a pure function from the inbound context state and the behaviour of the
protected block (does it raise? did it itself close the yielded handle?)
and of the driver's commit/rollback calls (do they raise?) to the full
observable outcome of the scope. -/

/-- How the protected block left the yielded handle when it closed it
itself (so that `tx.closed()` at db.py lines 96 and 101 is true). -/
inductive TxClose : Type where
  | committedByBlock
  | rolledBackByBlock
deriving DecidableEq

/-- What (if anything) propagates out of the scope. -/
inductive Propagated : Type where
  | nothing
  | nestingError
  | blockError
  | commitError
  | rollbackError
deriving DecidableEq

/-- Behaviour of the protected block of one `transaction()` execution. -/
structure BlockBehavior : Type where
  raises : Bool
  closes : Option TxClose
deriving DecidableEq

/-- The observable outcome of one `transaction()` execution: the context
variable after exit, whether the protected block ran at all, whether
`tx.commit()` / `tx.rollback()` were called by the scope, and what
propagated. -/
structure ScopeResult : Type where
  ctx : Option Nat
  blockRan : Bool
  commitCalled : Bool
  rollbackCalled : Bool
  propagated : Propagated
deriving DecidableEq

/-- `AsyncDatabase.transaction` (db.py lines 75-107).  Path by path:
line 81: a context with a bound transaction raises `RuntimeError` before
anything runs (the block never executes, the context is left as it was);
lines 90-93: otherwise a transaction `txId` is begun and bound;
lines 95-99: the block runs; if it completes and the handle is still open,
`commit` is called — a raising `commit` is caught by the `except` clause
(line 100) which attempts `rollback` if the handle is not closed
(`closedAfterFailedCommit`) and re-raises;
lines 100-105: if the block raises, `rollback` is called when the handle is
still open, and the exception (or the rollback's own) propagates;
lines 106-107: the `finally` clause resets the context variable on every
one of these paths. -/
def transactionScope (ctx0 : Option Nat) (txId : Nat) (blk : BlockBehavior)
    (commitRaises rollbackRaises closedAfterFailedCommit : Bool) : ScopeResult :=
  match ctx0 with
  | some t =>
      { ctx := some t, blockRan := false, commitCalled := false,
        rollbackCalled := false, propagated := .nestingError }
  | none =>
      let _ := txId
      let closedByBlock := blk.closes.isSome
      if blk.raises then
        if closedByBlock then
          { ctx := none, blockRan := true, commitCalled := false,
            rollbackCalled := false, propagated := .blockError }
        else
          { ctx := none, blockRan := true, commitCalled := false,
            rollbackCalled := true,
            propagated := if rollbackRaises then .rollbackError else .blockError }
      else
        if closedByBlock then
          { ctx := none, blockRan := true, commitCalled := false,
            rollbackCalled := false, propagated := .nothing }
        else if commitRaises then
          if closedAfterFailedCommit then
            { ctx := none, blockRan := true, commitCalled := true,
              rollbackCalled := false, propagated := .commitError }
          else
            { ctx := none, blockRan := true, commitCalled := true,
              rollbackCalled := true,
              propagated := if rollbackRaises then .rollbackError else .commitError }
        else
          { ctx := none, blockRan := true, commitCalled := true,
            rollbackCalled := false, propagated := .nothing }

/-- `AsyncDatabase.atomic` (db.py lines 109-119): the wrapper's whole body is
`async with self.transaction(): return await func(...)`, so a call of the
wrapped operation is exactly one execution of the transaction scope with
the operation as the protected block. -/
def atomicCall (ctx0 : Option Nat) (txId : Nat) (blk : BlockBehavior)
    (commitRaises rollbackRaises closedAfterFailedCommit : Bool) : ScopeResult :=
  transactionScope ctx0 txId blk commitRaises rollbackRaises closedAfterFailedCommit

/-! ## The relationship access manager's connect (src/node4j/properties.py) -/

/-- `RelationshipDirection` (properties.py lines 21-22). -/
inductive RelationshipDirection : Type where
  | IN
  | OUT
  | UNDIRECTED
deriving DecidableEq

/-- The two identifiers a node instance carries: `uid` (nodes.py line 97,
client-generated at construction by `default_factory=uuid.uuid4`; `none`
models a missing/falsy uid) and `_internal_id` (nodes.py line 98, assigned
only after a database round trip). -/
structure NodeRef : Type where
  uid : Option String
  internalId : Option String
deriving DecidableEq

/-- The parameters of the `CREATE`-edge query `connect` issues
(properties.py lines 90-102): relationship type and, after direction
correction, the `from_uid`/`to_uid` parameters and the edge properties. -/
structure ConnectQuery : Type where
  relType : String
  fromUid : String
  toUid : String
  props : List (String × Val)

/-- `RelationshipManager.connect` (properties.py lines 63-104): raises
`ValueError` before any query when either side's `uid` is falsy (line 65);
otherwise swaps from/to when the declared direction is `IN` (lines 87-88)
and issues the edge-creation query with the given properties (empty map
when none, lines 77-81). -/
def connectOp (inst target : NodeRef) (relType : String)
    (dir : RelationshipDirection) (props : Option (List (String × Val))) :
    Except String ConnectQuery :=
  match inst.uid, target.uid with
  | some fu, some tu =>
      let pd := props.getD []
      if dir = RelationshipDirection.IN then .ok ⟨relType, tu, fu, pd⟩
      else .ok ⟨relType, fu, tu, pd⟩
  | _, _ => .error "Oba węzły muszą być zapisane w bazie (mieć UID)."

/-! ## Hydration (src/node4j/manager.py)

The entity types and the registry: a relationship descriptor carries the
edge type, the target label, the private cache-slot name and whether an
edge-property schema (`model`) is declared; an entity type (`Model`) has a
name and its declared relationships; the global `node_registry`
(registry.py) maps labels to entity types. -/

/-- `RelationshipProperty` as the hydration engine reads it
(properties.py lines 140-165). -/
structure RelDescr : Type where
  relationshipType : String
  targetNodeLabel : String
  privateName : String
  hasEdgeModel : Bool
deriving DecidableEq

/-- An entity type: its name and its `_relationships` mapping
(nodes.py line 52). -/
structure Model : Type where
  name : String
  relationships : List (String × RelDescr)
deriving DecidableEq

/-- The global `node_registry` (registry.py): label → entity type. -/
abbrev Registry := List (String × Model)

/-- `node_registry.get(label)`. -/
def regGet (reg : Registry) (label : String) : Option Model :=
  (reg.find? (fun p => p.1 == label)).map (fun p => p.2)

/-- `model_class._relationships.get(key)`-style lookup (`key in
model_class._relationships` plus the subscript, manager.py lines 597-598). -/
def relGet (m : Model) (k : String) : Option RelDescr :=
  (m.relationships.find? (fun p => p.1 == k)).map (fun p => p.2)

/-- A hydrated entity instance: its validated scalar fields, its
`_internal_id` (set only from a present — and, in the recursive hydrator,
truthy — identity value), and one relationship cache slot per prefetched
relationship, keyed by the descriptor's private name. -/
inductive HydratedNode : Type where
  | mk : List (String × Val) → Option Val →
      List (String × List (HydratedNode × Val)) → HydratedNode

/-- The validated fields of a hydrated instance. -/
def HydratedNode.fields : HydratedNode → List (String × Val)
  | .mk f _ _ => f

/-- The `_internal_id` of a hydrated instance. -/
def HydratedNode.internalId : HydratedNode → Option Val
  | .mk _ i _ => i

/-- The populated relationship cache slots of a hydrated instance. -/
def HydratedNode.rels : HydratedNode → List (String × List (HydratedNode × Val))
  | .mk _ _ r => r

/-- Modelled from the spec: the external "typed-record validation"
capability (`model_class.model_validate`, pydantic) that section 1 of the
spec places out of scope.  It accepts a mapping and yields the validated
instance's field map; a non-mapping value is a validation error. -/
def modelValidate (v : Val) : Except String (List (String × Val)) :=
  match v with
  | .vobj kvs => .ok kvs
  | _ => .error "model_validate: wartość nie jest mapowaniem"

/-- Modelled from the spec: validation of an edge-property sub-record
against a declared edge schema (`rel_descriptor.model.model_validate`,
manager.py lines 621-624) — external, like `modelValidate`. -/
def edgeValidate (v : Val) : Except String Val :=
  match v with
  | .vobj kvs => .ok (.vobj kvs)
  | _ => .error "model_validate: wartość nie jest mapowaniem"

/-- The error message of `NodeManager._hydrate_node` (manager.py line 62). -/
def hydrateStructureMsg : String :=
  "Rekord z bazy danych ma nieprawidłową strukturę do hydratacji."

/-- `NodeManager._hydrate_node` (manager.py lines 56-67): a record missing
the `"node"` key or the `"internal_id"` key raises `ValueError`; otherwise
the `"node"` sub-record is validated and `_internal_id` is set
(unconditionally) from the record's `"internal_id"` value. -/
def hydrateNode (record : List (String × Val)) : Except String HydratedNode :=
  match dGet record "node", dGet record "internal_id" with
  | some nodeVal, some iid =>
      match modelValidate nodeVal with
      | .ok fields => .ok (.mk fields (some iid) [])
      | .error e => .error e
  | _, _ => .error hydrateStructureMsg

mutual

/-- `_convert_neo4j_temporals` (manager.py lines 25-45) on a value: rebuild
dicts and lists recursively, converting driver temporal scalars to native
ones; on this value domain (no temporal constructors) it is extensionally
the identity, proven as `convertTemporals_id`. -/
def convertTemporals : Val → Val
  | .vobj kvs => .vobj (convertTemporalsEntries kvs)
  | .vlist vs => .vlist (convertTemporalsList vs)
  | .prim s => .prim s
  | .vnull => .vnull

/-- `_convert_neo4j_temporals` on a dict's items. -/
def convertTemporalsEntries : List (String × Val) → List (String × Val)
  | [] => []
  | (k, v) :: rest => (k, convertTemporals v) :: convertTemporalsEntries rest

/-- `_convert_neo4j_temporals` on a list's elements. -/
def convertTemporalsList : List Val → List Val
  | [] => []
  | v :: rest => convertTemporals v :: convertTemporalsList rest

end

mutual

/-- `NodeManager._hydrate_recursive` (manager.py lines 591-644): pop
`_internal_id`, walk the remaining items (via `hEntries`), validate the
accumulated scalar fields (external validation always accepts the field
map the loop built), set `_internal_id` only when the popped value is
truthy (line 638), and attach the prefetched relationship lists under
their private names.  `_convert_neo4j_temporals` (applied to the field map
at line 635 and to each relationship value at line 607) is the identity on
this value domain — the driver's temporal types are not representable —
see `convertTemporals_id` below; the field-map application is kept, the
relationship-value application is elided. -/
def hydrateRecursive (reg : Registry) (model : Model)
    (nodeData : List (String × Val)) : Except String HydratedNode :=
  match hEntries reg model nodeData with
  | .error e => .error e
  | .ok (fields, rels) =>
      let internalId := dGet nodeData "_internal_id"
      let iid :=
        match internalId with
        | some v => if v.truthy then some v else none
        | none => none
      .ok (.mk (convertTemporalsEntries fields) iid rels)
termination_by 2 * sizeOf nodeData + 1
decreasing_by
  all_goals simp_wf
  all_goals omega

/-- The item loop of `_hydrate_recursive` (manager.py lines 596-632): a key
that names a declared relationship is resolved in the registry — an
unregistered target label raises `TypeError` (lines 599-603) before the
value is read — and its value, a list of `{rel, node}` maps, is hydrated
by `hRelList`; any other key (the popped `_internal_id` aside) goes to the
scalar field map.  A relationship value that is not a list aborts (the
Python `for` would raise). -/
def hEntries (reg : Registry) (model : Model) :
    List (String × Val) →
    Except String (List (String × Val) × List (String × List (HydratedNode × Val)))
  | [] => .ok ([], [])
  | (key, value) :: rest =>
    if key = "_internal_id" then hEntries reg model rest
    else
      match relGet model key with
      | some descr =>
          match regGet reg descr.targetNodeLabel with
          | none =>
              .error ("Nie znaleziono modelu dla etykiety '" ++
                descr.targetNodeLabel ++ "'")
          | some targetModel =>
              match value with
              | .vlist entries =>
                  match hRelList reg targetModel descr.hasEdgeModel entries with
                  | .error e => .error e
                  | .ok pairs =>
                      match hEntries reg model rest with
                      | .error e => .error e
                      | .ok (fields, rels) =>
                          .ok (fields, (descr.privateName, pairs) :: rels)
              | _ => .error "wartość relacji nie jest listą"
      | none =>
          match hEntries reg model rest with
          | .error e => .error e
          | .ok (fields, rels) => .ok ((key, value) :: fields, rels)
termination_by l => 2 * sizeOf l
decreasing_by
  all_goals simp_wf
  all_goals omega

/-- The relation-list loop of `_hydrate_recursive` (manager.py lines
609-628): each element must be a map; a falsy (absent, null or empty)
`"node"` sub-record is skipped, not an error (lines 614-615); a truthy one
must be a map and is hydrated recursively with the target entity type;
the `"rel"` sub-record (default empty map) is validated against the edge
schema when one is declared, kept raw otherwise. -/
def hRelList (reg : Registry) (target : Model) (hasEdgeModel : Bool) :
    List Val → Except String (List (HydratedNode × Val))
  | [] => .ok []
  | relMap :: rest =>
      match relMap with
      | .vobj kvs =>
          match hnode : dGet kvs "node" with
          | none => hRelList reg target hasEdgeModel rest
          | some nested =>
              if nested.truthy then
                match nested with
                | .vobj nkvs =>
                    match hydrateRecursive reg target nkvs with
                    | .error e => .error e
                    | .ok node =>
                        let relProps := (dGet kvs "rel").getD (.vobj [])
                        match
                          (if hasEdgeModel then edgeValidate relProps
                           else .ok relProps) with
                        | .error e => .error e
                        | .ok props =>
                            match hRelList reg target hasEdgeModel rest with
                            | .error e => .error e
                            | .ok pairs => .ok ((node, props) :: pairs)
                | _ => .error "zagnieżdżony rekord węzła nie jest mapowaniem"
              else hRelList reg target hasEdgeModel rest
      | _ => .error "element listy relacji nie jest mapowaniem"
termination_by l => 2 * sizeOf l
decreasing_by
  all_goals simp_wf
  all_goals try omega
  have aux : ∀ (d : List (String × Val)) (k : String) (v : Val),
      dGet d k = some v → sizeOf v < sizeOf d := by
    intro d k v h
    unfold dGet at h
    obtain ⟨pr, hfind, hv⟩ := Option.map_eq_some'.mp h
    have h1 := List.sizeOf_lt_of_mem (List.mem_of_find?_eq_some hfind)
    cases pr with
    | mk a b =>
        simp only at hv
        subst hv
        simp only [Prod.mk.sizeOf_spec] at h1
        omega
  have h1 := aux kvs "node" (Val.vobj nkvs) hnode
  simp only [Val.vobj.sizeOf_spec] at h1
  omega

end

mutual

/-- Well-formedness of a record for `hydrateRecursive` under a registry and
an entity type: every relationship-named key (other than the popped
`_internal_id`) must have a registered target label and a list value whose
elements are maps, each with a falsy `"node"` or a well-formed map `"node"`
(and, when an edge schema is declared, a map-or-absent `"rel"`). -/
def wfData (reg : Registry) (model : Model) : List (String × Val) → Bool
  | [] => true
  | (key, value) :: rest =>
    if key = "_internal_id" then wfData reg model rest
    else
      match relGet model key with
      | some descr =>
          match regGet reg descr.targetNodeLabel with
          | none => false
          | some targetModel =>
              match value with
              | .vlist entries =>
                  wfRelList reg targetModel descr.hasEdgeModel entries &&
                    wfData reg model rest
              | _ => false
      | none => wfData reg model rest
termination_by l => 2 * sizeOf l + 1
decreasing_by
  all_goals simp_wf
  all_goals omega

/-- Well-formedness of a relation-list value (see `wfData`). -/
def wfRelList (reg : Registry) (target : Model) (hasEdgeModel : Bool) :
    List Val → Bool
  | [] => true
  | relMap :: rest =>
      match relMap with
      | .vobj kvs =>
          (match hnode : dGet kvs "node" with
           | none => true
           | some nested =>
               if nested.truthy then
                 match nested with
                 | .vobj nkvs =>
                     wfData reg target nkvs &&
                       (if hasEdgeModel then
                          match (dGet kvs "rel").getD (.vobj []) with
                          | .vobj _ => true
                          | _ => false
                        else true)
                 | _ => false
               else true) &&
            wfRelList reg target hasEdgeModel rest
      | _ => false
termination_by l => 2 * sizeOf l
decreasing_by
  all_goals simp_wf
  all_goals try omega
  have aux : ∀ (d : List (String × Val)) (k : String) (v : Val),
      dGet d k = some v → sizeOf v < sizeOf d := by
    intro d k v h
    unfold dGet at h
    obtain ⟨pr, hfind, hv⟩ := Option.map_eq_some'.mp h
    have h1 := List.sizeOf_lt_of_mem (List.mem_of_find?_eq_some hfind)
    cases pr with
    | mk a b =>
        simp only at hv
        subst hv
        simp only [Prod.mk.sizeOf_spec] at h1
        omega
  have h1 := aux kvs "node" (Val.vobj nkvs) hnode
  simp only [Val.vobj.sizeOf_spec] at h1
  omega

end

/-! ## `update` and `delete` (src/node4j/manager.py lines 195-288)

Both operations first test Python truthiness of `filters` (a dict or a `Q`
object), then resolve the target set with a read query (`match_all`), then
write per matched node inside one transaction.  The external query
execution is a collaborator: the read's answer is the `matched` parameter,
and the outcome records how many read round trips were made and the
`elementId` of every node a write query was issued for. -/

/-- The `filters` argument: a dict of field filters or a `Q` object. -/
inductive Filters (α : Type) : Type where
  | dict : List (String × α) → Filters α
  | q : Q α → Filters α

/-- Python truthiness of `filters` (the `if not filters:` checks at
manager.py lines 196 and 253): a dict is truthy iff non-empty; a `Q`
object defines neither `__bool__` nor `__len__`, so it is always truthy —
even with no children. -/
def Filters.pyTruthy {α : Type} : Filters α → Bool
  | .dict fs => !fs.isEmpty
  | .q _ => true

/-- A second definition following the spec's words (for the claim about
"an empty filter"): a filter is empty when it is an empty dict or a filter
expression with no children. -/
def Filters.specEmpty {α : Type} : Filters α → Bool
  | .dict fs => fs.isEmpty
  | .q qobj => qobj.children.isEmpty

/-- One node of the resolved target set, as the write loop uses it
(its `_internal_id`, manager.py lines 240-245 and 280-285). -/
structure MatchedNode : Type where
  internalId : String
deriving DecidableEq

/-- The observable outcome of one `update`/`delete` call: the returned
count or the raised error, the number of read round trips issued, and the
`elementId` parameters of the write queries issued, in order. -/
structure ManagerOpResult : Type where
  result : Except String Nat
  readsIssued : Nat
  writeElementIds : List String

/-- `NodeManager.update` (manager.py lines 195-249): falsy `filters` raise
`ValueError` before any query; empty `data` returns 0 without any query;
otherwise the target set is resolved by one read, an empty match set
returns 0 with no write, and each matched node gets one write query inside
the shared transaction, the returned count incremented per node. -/
def updateOp {α : Type} (filters : Filters α) (data : List (String × α))
    (matched : List MatchedNode) : ManagerOpResult :=
  if !filters.pyTruthy then
    ⟨.error "Metoda update wymaga podania filtrów...", 0, []⟩
  else if data.isEmpty then ⟨.ok 0, 0, []⟩
  else if matched.isEmpty then ⟨.ok 0, 1, []⟩
  else ⟨.ok matched.length, 1, matched.map (fun n => n.internalId)⟩

/-- `NodeManager.delete` (manager.py lines 252-288): falsy `filters` raise
`ValueError` before any query; an empty match set returns 0 with no write;
otherwise one `DETACH DELETE` write per matched node, count returned. -/
def deleteOp {α : Type} (filters : Filters α)
    (matched : List MatchedNode) : ManagerOpResult :=
  if !filters.pyTruthy then
    ⟨.error "Metoda delete wymaga podania filtrów...", 0, []⟩
  else if matched.isEmpty then ⟨.ok 0, 1, []⟩
  else ⟨.ok matched.length, 1, matched.map (fun n => n.internalId)⟩

/-! ## Decimal representation helpers (for parameter-name uniqueness)

`pname n = "p_" ++ Nat.repr n`; to prove distinct counters give distinct
names, `Nat.repr` is related to a structurally recursive digit renderer
and a decimal reader that inverts it. -/

/-- The most-significant-digit-first rendering that `Nat.toDigitsCore`
produces: digits of `n / 10` followed by the digit of `n % 10`. -/
def digitsRec (n : Nat) : List Char :=
  if n < 10 then [Nat.digitChar n]
  else digitsRec (n / 10) ++ [Nat.digitChar (n % 10)]
decreasing_by
  exact Nat.div_lt_self (by omega) (by omega)

/-- The numeric value of a decimal digit character. -/
def decDigit (c : Char) : Nat := c.toNat - 48

/-- Read a most-significant-first decimal digit list back to a number. -/
def decVal (l : List Char) : Nat := l.foldl (fun a c => 10 * a + decDigit c) 0

/-! ## Theorems

First the supporting lemmas (decimal rendering, identity of the temporal
conversion, dictionary update laws, the compiler's parameter bookkeeping),
then one theorem per claim of the specification review, with witnesses and
counterexamples. -/

/-- `Nat.toDigitsCore` with enough fuel renders `digitsRec`. -/
theorem toDigitsCore_eq_digitsRec :
    ∀ (f n : Nat) (ds : List Char), n < f →
      Nat.toDigitsCore 10 f n ds = digitsRec n ++ ds := by
  intro f
  induction f with
  | zero => intro n ds h; exact absurd h (Nat.not_lt_zero n)
  | succ f ih =>
      intro n ds h
      simp only [Nat.toDigitsCore]
      by_cases h10 : n / 10 = 0
      · rw [if_pos h10]
        have hn : n < 10 := by omega
        rw [digitsRec]
        rw [if_pos hn, Nat.mod_eq_of_lt hn]
        rfl
      · rw [if_neg h10]
        have hlt : n / 10 < f := by omega
        rw [ih (n / 10) (Nat.digitChar (n % 10) :: ds) hlt]
        conv_rhs => rw [digitsRec, if_neg (by omega : ¬ n < 10)]
        simp

/-- Decimal digit characters decode back to their value. -/
theorem decDigit_digitChar : ∀ m : Nat, m < 10 → decDigit (Nat.digitChar m) = m := by
  intro m h
  interval_cases m <;> rfl

/-- `decVal` inverts `digitsRec`. -/
theorem decVal_digitsRec : ∀ n : Nat, decVal (digitsRec n) = n := by
  intro n
  induction n using Nat.strong_induction_on with
  | _ n ih =>
      by_cases h : n < 10
      · rw [digitsRec, if_pos h]
        show 10 * 0 + decDigit (Nat.digitChar n) = n
        rw [decDigit_digitChar n h]
        omega
      · rw [digitsRec, if_neg h]
        show List.foldl (fun a c => 10 * a + decDigit c) 0
          (digitsRec (n / 10) ++ [Nat.digitChar (n % 10)]) = n
        rw [List.foldl_append]
        have ihq := ih (n / 10) (Nat.div_lt_self (by omega) (by omega))
        rw [show List.foldl (fun a c => 10 * a + decDigit c) 0 (digitsRec (n / 10)) =
          decVal (digitsRec (n / 10)) from rfl, ihq]
        show 10 * (n / 10) + decDigit (Nat.digitChar (n % 10)) = n
        rw [decDigit_digitChar (n % 10) (by omega)]
        omega

/-- `Nat.repr` is injective (at the character-list level). -/
theorem reprDataInj : ∀ m n : Nat, (Nat.repr m).data = (Nat.repr n).data → m = n := by
  intro m n h
  have hd : Nat.toDigits 10 m = Nat.toDigits 10 n := h
  unfold Nat.toDigits at hd
  rw [toDigitsCore_eq_digitsRec (m + 1) m [] (by omega),
      toDigitsCore_eq_digitsRec (n + 1) n [] (by omega)] at hd
  simp only [List.append_nil] at hd
  have h2 := congrArg decVal hd
  rwa [decVal_digitsRec, decVal_digitsRec] at h2

/-- Distinct counters give distinct parameter names. -/
theorem pname_inj : ∀ m n : Nat, pname m = pname n → m = n := by
  intro m n h
  unfold pname at h
  have hd := congrArg String.data h
  rw [String.data_append, String.data_append] at hd
  exact reprDataInj m n (List.append_cancel_left hd)

/-- `_convert_neo4j_temporals` is the identity on the embedded value
domain (there are no driver temporal values to convert). -/
theorem convertTemporals_id :
    (∀ v : Val, convertTemporals v = v) ∧
    (∀ vs : List Val, convertTemporalsList vs = vs) ∧
    (∀ kvs : List (String × Val), convertTemporalsEntries kvs = kvs) := by
  refine convertTemporals.mutual_induct
    (motive_1 := fun v => convertTemporals v = v)
    (motive_2 := fun vs => convertTemporalsList vs = vs)
    (motive_3 := fun kvs => convertTemporalsEntries kvs = kvs)
    ?_ ?_ ?_ ?_ ?_ ?_ ?_ ?_
  all_goals intros
  all_goals simp_all [convertTemporals, convertTemporalsEntries, convertTemporalsList]

/-! ### C1 — the atomic wrapper and nesting -/

/-- C1 counterexample: with a transaction already active on the call chain
(`ctx0 = some 7`), the atomic wrapper does NOT join it and run the wrapped
operation — the operation never executes and the nesting `RuntimeError`
propagates (db.py lines 81-84). -/
theorem atomic_wrapper_nesting_cx :
    (atomicCall (some 7) 0 ⟨false, none⟩ false false false).blockRan = false ∧
    (atomicCall (some 7) 0 ⟨false, none⟩ false false false).propagated =
      Propagated.nestingError := by
  exact ⟨rfl, rfl⟩

/-- C1 (amended): the atomic wrapper never joins an ambient transaction;
with one active it raises the nesting error before the wrapped operation
runs (leaving the context bound as it was, calling neither commit nor
rollback), and only from an idle context does it begin a new transaction,
run the operation inside it, and commit (or roll back on failure) at the
scope's exit. -/
theorem atomic_wrapper_behavior :
    ∀ (ctx0 : Option Nat) (txId : Nat) (blk : BlockBehavior)
      (cr rr cafc : Bool),
      (ctx0.isSome = true →
        (atomicCall ctx0 txId blk cr rr cafc).blockRan = false ∧
        (atomicCall ctx0 txId blk cr rr cafc).propagated = .nestingError ∧
        (atomicCall ctx0 txId blk cr rr cafc).ctx = ctx0 ∧
        (atomicCall ctx0 txId blk cr rr cafc).commitCalled = false ∧
        (atomicCall ctx0 txId blk cr rr cafc).rollbackCalled = false) ∧
      (ctx0 = none →
        (atomicCall ctx0 txId blk cr rr cafc).blockRan = true ∧
        (atomicCall ctx0 txId blk cr rr cafc).ctx = none ∧
        (blk.raises = false → blk.closes = none →
          (atomicCall ctx0 txId blk cr rr cafc).commitCalled = true) ∧
        (blk.raises = true → blk.closes = none →
          (atomicCall ctx0 txId blk cr rr cafc).rollbackCalled = true)) := by
  intro ctx0 txId blk cr rr cafc
  cases ctx0 with
  | some t =>
      constructor
      · intro
        exact ⟨rfl, rfl, rfl, rfl, rfl⟩
      · intro hn
        exact Option.noConfusion hn
  | none =>
      constructor
      · intro hs
        exact Bool.noConfusion hs
      · intro
        cases blk with
        | mk raises closes =>
            cases raises <;> cases closes <;> cases cr <;> cases cafc <;>
              simp [atomicCall, transactionScope]

/-- C1 witness: from an idle context the wrapper runs the operation inside
a fresh transaction and commits at exit. -/
theorem atomic_wrapper_behavior_witness :
    (atomicCall none 3 ⟨false, none⟩ false false false).blockRan = true ∧
    (atomicCall none 3 ⟨false, none⟩ false false false).commitCalled = true := by
  have h := (atomic_wrapper_behavior none 3 ⟨false, none⟩ false false false).2 rfl
  exact ⟨h.1, h.2.2.1 rfl rfl⟩

/-! ### C2 — connect and persisted identifiers -/

/-- C2 counterexample: both nodes carry a (client-generated) `uid` but no
database-assigned `_internal_id` — they were never persisted — yet
`connect` raises no precondition error and issues the edge-creation
query. -/
theorem connect_unpersisted_cx :
    (NodeRef.mk (some "u1") none).internalId = none ∧
    connectOp ⟨some "u1", none⟩ ⟨some "u2", none⟩ "KNOWS" .OUT none =
      .ok ⟨"KNOWS", "u1", "u2", []⟩ := by
  exact ⟨rfl, rfl⟩

/-- C2 (amended): connect's precondition error fires exactly when either
side's `uid` is missing — the check is on the client-generated `uid`
(nodes.py line 97), not on the database-assigned internal identifier — and
when both `uid`s are present the query is issued with from/to swapped for
an incoming declared direction. -/
theorem connect_requires_uid :
    ∀ (inst target : NodeRef) (rt : String) (dir : RelationshipDirection)
      (props : Option (List (String × Val))),
      ((∃ e, connectOp inst target rt dir props = .error e) ↔
        (inst.uid = none ∨ target.uid = none)) ∧
      (∀ fu tu, inst.uid = some fu → target.uid = some tu →
        connectOp inst target rt dir props =
          .ok ⟨rt, if dir = .IN then tu else fu,
               if dir = .IN then fu else tu, props.getD []⟩) := by
  intro inst target rt dir props
  constructor
  · constructor
    · rintro ⟨e, he⟩
      cases hiu : inst.uid with
      | none => exact Or.inl rfl
      | some fu =>
          cases htu : target.uid with
          | none => exact Or.inr rfl
          | some tu =>
              exfalso
              unfold connectOp at he
              rw [hiu, htu] at he
              by_cases hdir : dir = RelationshipDirection.IN <;>
                simp [hdir] at he
    · intro h
      unfold connectOp
      rcases h with h | h
      · rw [h]
        cases target.uid <;> exact ⟨_, rfl⟩
      · rw [h]
        cases inst.uid <;> exact ⟨_, rfl⟩
  · intro fu tu h1 h2
    unfold connectOp
    rw [h1, h2]
    by_cases hdir : dir = RelationshipDirection.IN <;> simp [hdir]

/-- C2 witness: a missing target uid raises; two present uids with an
incoming direction issue the swapped query. -/
theorem connect_requires_uid_witness :
    (∃ e, connectOp ⟨some "u1", none⟩ ⟨none, none⟩ "KNOWS" .OUT none = .error e) ∧
    connectOp ⟨some "a", some "i1"⟩ ⟨some "b", some "i2"⟩ "WORK_AT" .IN
        (some [("role", Val.prim "boss")]) =
      .ok ⟨"WORK_AT", "b", "a", [("role", Val.prim "boss")]⟩ := by
  constructor
  · exact (connect_requires_uid ⟨some "u1", none⟩ ⟨none, none⟩ "KNOWS" .OUT none).1.mpr
      (Or.inr rfl)
  · exact (connect_requires_uid ⟨some "a", some "i1"⟩ ⟨some "b", some "i2"⟩ "WORK_AT" .IN
      (some [("role", Val.prim "boss")])).2 "a" "b" rfl rfl

/-! ### C4 — the transaction scope's exit paths -/

/-- C4 counterexample: the protected block itself rolled the handle back
and then completed without failure; the scope checks `tx.closed()`
(db.py line 96) and does NOT commit, against the claim that completion
without failure leads to commit. -/
theorem transaction_commit_skipped_cx :
    (transactionScope none 0 ⟨false, some .rolledBackByBlock⟩ false false
        false).blockRan = true ∧
    (transactionScope none 0 ⟨false, some .rolledBackByBlock⟩ false false
        false).propagated = Propagated.nothing ∧
    (transactionScope none 0 ⟨false, some .rolledBackByBlock⟩ false false
        false).commitCalled = false := by
  exact ⟨rfl, rfl, rfl⟩

/-- C4 (amended): on every execution of the transaction scope entered from
idle — block completes, block raises, commit raises, rollback raises —
the context-bound transaction is reset to idle by scope exit; when the
block did not itself close the handle, completion without failure leads to
commit and raising leads to rollback before the exception propagates;
when the block closed the handle, commit/rollback are skipped. -/
theorem transaction_scope_resets_ctx :
    ∀ (txId : Nat) (blk : BlockBehavior) (cr rr cafc : Bool),
      (transactionScope none txId blk cr rr cafc).ctx = none ∧
      (transactionScope none txId blk cr rr cafc).blockRan = true ∧
      (blk.raises = false → blk.closes = none →
        (transactionScope none txId blk cr rr cafc).commitCalled = true) ∧
      (blk.raises = true → blk.closes = none →
        (transactionScope none txId blk cr rr cafc).rollbackCalled = true ∧
        (transactionScope none txId blk cr rr cafc).propagated ≠
          Propagated.nothing) ∧
      (blk.closes.isSome = true →
        (transactionScope none txId blk cr rr cafc).commitCalled = false ∧
        (transactionScope none txId blk cr rr cafc).rollbackCalled = false) := by
  intro txId blk cr rr cafc
  cases blk with
  | mk raises closes =>
      cases raises <;> cases closes <;> cases cr <;> cases rr <;> cases cafc <;>
        simp [transactionScope]

/-- C4 witness: a raising block gets its transaction rolled back, a raising
commit still leaves the context idle. -/
theorem transaction_scope_resets_ctx_witness :
    (transactionScope none 1 ⟨true, none⟩ false false false).rollbackCalled =
      true ∧
    (transactionScope none 1 ⟨false, none⟩ true false false).ctx = none := by
  constructor
  · exact ((transaction_scope_resets_ctx 1 ⟨true, none⟩ false false false).2.2.2.1
      rfl rfl).1
  · exact (transaction_scope_resets_ctx 1 ⟨false, none⟩ true false false).1

/-! ### C8 — update/delete and empty filters -/

/-- C8 counterexample: an empty `Q` filter expression (no children) is an
empty filter in the spec's sense, but `update` raises no caller error on
it — the `Q` object is truthy — and the read query is issued (matching
everything); with nothing matched it returns 0. -/
theorem update_empty_q_filter_cx :
    (Filters.q (Q.mk ([] : List ((String × Val) ⊕ Q Val)) .AND false)).specEmpty
        = true ∧
    (updateOp (Filters.q (Q.mk [] .AND false)) [("age", Val.prim "41")]
        []).result = .ok 0 ∧
    (updateOp (Filters.q (Q.mk [] .AND false)) [("age", Val.prim "41")]
        []).readsIssued = 1 := by
  exact ⟨rfl, rfl, rfl⟩

/-- C8 (amended): `update`/`delete` raise the caller error before any query
exactly when the filter is falsy — and the only falsy filter is an empty
dict, an empty `Q` object being truthy — while any truthy filter matching
no records returns 0 without raising and issues no write. -/
theorem update_delete_filter_behavior :
    ∀ (filters : Filters Val) (data : List (String × Val))
      (matched : List MatchedNode),
      (filters.pyTruthy = false →
        (updateOp filters data matched).result =
          .error "Metoda update wymaga podania filtrów..." ∧
        (updateOp filters data matched).readsIssued = 0 ∧
        (updateOp filters data matched).writeElementIds = [] ∧
        (deleteOp filters matched).result =
          .error "Metoda delete wymaga podania filtrów..." ∧
        (deleteOp filters matched).readsIssued = 0 ∧
        (deleteOp filters matched).writeElementIds = []) ∧
      (∀ fs, filters = .dict fs → (filters.pyTruthy = false ↔ fs = [])) ∧
      (∀ qq, filters = .q qq → filters.pyTruthy = true) ∧
      (filters.pyTruthy = true → matched = [] →
        (updateOp filters data matched).result = .ok 0 ∧
        (updateOp filters data matched).writeElementIds = [] ∧
        (deleteOp filters matched).result = .ok 0 ∧
        (deleteOp filters matched).writeElementIds = []) := by
  intro filters data matched
  refine ⟨?_, ?_, ?_, ?_⟩
  · intro hf
    simp [updateOp, deleteOp, hf]
  · rintro fs rfl
    simp [Filters.pyTruthy, List.isEmpty_iff]
  · rintro qq rfl
    rfl
  · rintro hf rfl
    by_cases hd : data.isEmpty <;> simp [updateOp, deleteOp, hf, hd]

/-- C8 witness: an empty dict filter raises the caller error; a non-empty
filter matching nothing returns 0 with no write. -/
theorem update_delete_filter_behavior_witness :
    (updateOp (Filters.dict ([] : List (String × Val))) [] []).result =
      .error "Metoda update wymaga podania filtrów..." ∧
    (deleteOp (Filters.dict [("name", Val.prim "Bob")]) []).result = .ok 0 := by
  constructor
  · exact ((update_delete_filter_behavior (Filters.dict []) [] []).1 rfl).1
  · exact ((update_delete_filter_behavior (Filters.dict [("name", Val.prim "Bob")])
      [] []).2.2.2 rfl rfl).2.2.1

/-! ### C5 — identity law for combining with an empty filter -/

/-- C5: combining any filter expression with an empty one, in either order
and under either connector, compiles to exactly the fragment and parameter
map of the non-empty side alone (`_combine` returns that operand, and two
empty expressions compile identically). -/
theorem q_combine_identity :
    ∀ (A E : Q Val) (conn : QConnector) (a : String) (c : Nat),
      E.children = [] →
      toCypher (A.combine E conn) a c = toCypher A a c ∧
      toCypher (E.combine A conn) a c = toCypher A a c := by
  intro A E conn a c hE
  cases A with
  | mk chA cA nA =>
      cases E with
      | mk chE cE nE =>
          simp only [Q.children] at hE
          subst hE
          cases hA : chA.isEmpty with
          | true =>
              have hA2 : chA = [] := List.isEmpty_iff.mp hA
              subst hA2
              constructor <;> simp [Q.combine, Q.children, toCypher]
          | false =>
              constructor
              · have hcomb : (Q.mk chA cA nA).combine (Q.mk [] cE nE) conn =
                    Q.mk chA cA nA := by
                  simp [Q.combine, Q.children, hA]
                rw [hcomb]
              · have hcomb : (Q.mk ([] : List ((String × Val) ⊕ Q Val)) cE
                    nE).combine (Q.mk chA cA nA) conn = Q.mk chA cA nA := by
                  simp [Q.combine, Q.children]
                rw [hcomb]

/-- C5 witness: a one-leaf expression combined with `Q()` compiles the same
in every position. -/
theorem q_combine_identity_witness :
    toCypher ((Q.mk [Sum.inl ("name", Val.prim "Alice")] .AND false).combine
        (Q.mk [] .AND false) .OR) "n" 0 =
      toCypher (Q.mk [Sum.inl ("name", Val.prim "Alice")] .AND false) "n" 0 := by
  exact (q_combine_identity (Q.mk [Sum.inl ("name", Val.prim "Alice")] .AND false)
    (Q.mk [] .AND false) .OR "n" 0 rfl).1

/-! ### C10 — negation of an empty filter -/

/-- C10: negating an empty filter expression still compiles to the empty
fragment and empty parameter map — identical to the empty expression's own
output — because `to_cypher` tests `children` before the negation flag. -/
theorem q_invert_empty_compiles_empty :
    ∀ (E : Q Val) (a : String) (c : Nat), E.children = [] →
      toCypher E.invert a c = (("", []), c) ∧
      toCypher E a c = (("", []), c) := by
  intro E a c hE
  cases E with
  | mk ch conn neg =>
      simp only [Q.children] at hE
      subst hE
      constructor <;>
        simp [Q.invert, Q.children, Q.connector, Q.negated, toCypher]

/-- C10 witness: `~Q()` and `Q()` compile identically (to nothing). -/
theorem q_invert_empty_witness :
    toCypher (Q.mk ([] : List ((String × Val) ⊕ Q Val)) .AND false).invert
        "n" 0 = (("", []), 0) := by
  exact (q_invert_empty_compiles_empty (Q.mk [] .AND false) "n" 0 rfl).1

/-! ### C9 — unrecognized operator suffixes -/

/-- C9: a leaf key containing `"__"` with a suffix that is not one of the
nine recognized operator tags compiles, without error, to an equality
comparison against the portion of the key before the first `"__"` — the
unrecognized suffix is silently dropped (`partition` + `dict.get` default,
query.py lines 70-73). -/
theorem compile_unknown_suffix_eq :
    ∀ (a key p : String),
      (findSplit ("__".data) key.data).isSome = true →
      (pyPartition key "__").2 ∉
        ["gt", "gte", "lt", "lte", "in", "contains", "startswith",
         "endswith", "ne"] →
      compileClause a key p =
        a ++ ".`" ++ (pyPartition key "__").1 ++ "` = $" ++ p := by
  intro a key p _hsep hmem
  have hfind : operatorMap.find?
      (fun q => q.1 == (pyPartition key "__").2) = none := by
    rw [List.find?_eq_none]
    intro x hx
    fin_cases hx <;>
      · simp only [beq_iff_eq]
        intro hq
        exact hmem (by rw [← hq]; simp)
  have key2 : ∀ x : String, x ++ "` " ++ "=" ++ " $" = x ++ "` = $" := by
    intro x
    rw [String.append_assoc, String.append_assoc]
    rfl
  simp only [compileClause, opFor, hfind]
  rw [show a ++ ".`" ++ (pyPartition key "__").1 ++ "` " ++ "=" ++ " $" =
    a ++ ".`" ++ (pyPartition key "__").1 ++ "` = $" from key2 _]

/-- C9 witness: `age__foo` compiles to an equality on `age`. -/
theorem compile_unknown_suffix_eq_witness :
    compileClause "node" "age__foo" "p_0" = "node.`age` = $p_0" := by
  have h := compile_unknown_suffix_eq "node" "age__foo" "p_0" (by decide)
    (by decide)
  exact h.trans (by decide)

/-! ### C6 — no mutation, and when a new tree is (not) produced -/

/-- C6 counterexample: combining a non-empty expression (object 0) with an
empty one (object 1) returns object 0 itself — the very operand, no new
tree — and leaves the store unchanged (query.py lines 81-85). -/
theorem combine_returns_operand_cx :
    combineS ([⟨[Sum.inr ("name", Val.prim "Alice")], .AND, false⟩,
               ⟨[], .AND, false⟩] : Store Val) 0 1 .AND =
      some ([⟨[Sum.inr ("name", Val.prim "Alice")], .AND, false⟩,
             ⟨[], .AND, false⟩], 0) := rfl

/-- C6 (amended): combination and negation never mutate the operands —
every object stored before the call is unchanged after it — and when both
operands are non-empty, combination allocates a new object distinct from
both; but when either operand is empty, combination returns the other
operand itself and allocates nothing.  Negation always allocates a new
object carrying the flipped flag. -/
theorem q_store_no_mutation :
    ∀ (s : Store Val) (aId bId : Nat) (conn : QConnector) (a b : QObj Val),
      s[aId]? = some a → s[bId]? = some b →
      ((∀ s2 rId, combineS s aId bId conn = some (s2, rId) →
          (∀ i, i < s.length → s2[i]? = s[i]?) ∧
          (a.children ≠ [] → b.children ≠ [] →
            rId = s.length ∧
            s2 = s ++ [⟨[.inl aId, .inl bId], conn, false⟩] ∧
            rId ≠ aId ∧ rId ≠ bId)) ∧
       (∀ s3 rId, invertS s aId = some (s3, rId) →
          (∀ i, i < s.length → s3[i]? = s[i]?) ∧
          rId = s.length ∧ rId ≠ aId ∧
          s3[rId]? = some ⟨a.children, a.connector, !a.negated⟩)) := by
  intro s aId bId conn a b ha hb
  have haLen : aId < s.length := (List.getElem?_eq_some.mp ha).1
  have hbLen : bId < s.length := (List.getElem?_eq_some.mp hb).1
  constructor
  · intro s2 rId hc
    simp only [combineS, ha, hb] at hc
    by_cases hae : a.children.isEmpty
    · rw [if_pos hae] at hc
      simp only [Option.some.injEq, Prod.mk.injEq] at hc
      obtain ⟨h1, h2⟩ := hc
      subst h1
      subst h2
      refine ⟨fun i _ => rfl, fun hna _ => ?_⟩
      exact absurd (List.isEmpty_iff.mp hae) hna
    · rw [if_neg hae] at hc
      by_cases hbe : b.children.isEmpty
      · rw [if_pos hbe] at hc
        simp only [Option.some.injEq, Prod.mk.injEq] at hc
        obtain ⟨h1, h2⟩ := hc
        subst h1
        subst h2
        refine ⟨fun i _ => rfl, fun _ hnb => ?_⟩
        exact absurd (List.isEmpty_iff.mp hbe) hnb
      · rw [if_neg hbe] at hc
        simp only [Option.some.injEq, Prod.mk.injEq] at hc
        obtain ⟨h1, h2⟩ := hc
        subst h1
        subst h2
        refine ⟨fun i hi => List.getElem?_append_left hi, fun _ _ => ?_⟩
        exact ⟨rfl, rfl, by omega, by omega⟩
  · intro s3 rId hc
    unfold invertS at hc
    rw [ha] at hc
    simp only [Option.some.injEq, Prod.mk.injEq] at hc
    obtain ⟨h1, h2⟩ := hc
    subst h1
    subst h2
    refine ⟨fun i hi => List.getElem?_append_left hi, rfl, by omega, ?_⟩
    exact List.getElem?_concat_length s ⟨a.children, a.connector, !a.negated⟩

/-- C6 witness: two non-empty operands allocate a fresh object (id 2 in a
two-object store) and object 0 reads back unchanged afterwards. -/
theorem q_store_no_mutation_witness :
    (([⟨[Sum.inr ("n", Val.prim "x")], .AND, false⟩,
       ⟨[Sum.inr ("m", Val.prim "y")], .OR, false⟩] : Store Val) ++
        [⟨[Sum.inl 0, Sum.inl 1], .AND, false⟩])[0]? =
      ([⟨[Sum.inr ("n", Val.prim "x")], .AND, false⟩,
        ⟨[Sum.inr ("m", Val.prim "y")], .OR, false⟩] : Store Val)[0]? ∧
    (2 : Nat) ≠ 0 ∧ (2 : Nat) ≠ 1 := by
  have hcomb : combineS
      ([⟨[Sum.inr ("n", Val.prim "x")], .AND, false⟩,
        ⟨[Sum.inr ("m", Val.prim "y")], .OR, false⟩] : Store Val) 0 1 .AND =
      some (([⟨[Sum.inr ("n", Val.prim "x")], .AND, false⟩,
              ⟨[Sum.inr ("m", Val.prim "y")], .OR, false⟩] : Store Val) ++
             [⟨[Sum.inl 0, Sum.inl 1], .AND, false⟩], 2) := rfl
  have h := (q_store_no_mutation _ 0 1 .AND _ _ rfl rfl).1 _ 2 hcomb
  obtain ⟨hpres, hfresh⟩ := h
  have hf := hfresh (by simp) (by simp)
  exact ⟨hpres 0 (by norm_num), hf.2.2⟩

/-! ### C7 — one uniquely named parameter per leaf -/

/-- Assigning a key absent from a dict appends it. -/
theorem setItem_fresh {α : Type} (d : List (String × α)) (k : String) (v : α)
    (h : ∀ p ∈ d, p.1 ≠ k) : setItem d k v = d ++ [(k, v)] := by
  unfold setItem
  rw [if_neg]
  intro hc
  rw [List.any_eq_true] at hc
  obtain ⟨p2, hp, hpk⟩ := hc
  exact h p2 hp (by simpa using hpk)

/-- Updating a dict with pairwise-fresh, duplicate-free keys appends. -/
theorem dictUpdate_fresh {α : Type} :
    ∀ (e d : List (String × α)),
      (∀ p ∈ e, ∀ q2 ∈ d, q2.1 ≠ p.1) → (e.map Prod.fst).Nodup →
      dictUpdate d e = d ++ e := by
  intro e
  induction e with
  | nil => intro d _ _; simp [dictUpdate]
  | cons pe rest ih =>
      intro d hdisj hnd
      have hnd2 : (pe.1 :: rest.map Prod.fst).Nodup := by simpa using hnd
      have h1 : setItem d pe.1 pe.2 = d ++ [(pe.1, pe.2)] :=
        setItem_fresh d pe.1 pe.2 (fun q2 hq => hdisj pe (by simp) q2 hq)
      have hstep : dictUpdate d (pe :: rest) =
          dictUpdate (setItem d pe.1 pe.2) rest := by
        simp [dictUpdate]
      rw [hstep, h1, ih]
      · cases pe with
        | mk a b => simp
      · intro p2 hp q2 hq2
        rcases List.mem_append.mp hq2 with hq | hq
        · exact hdisj p2 (by simp [hp]) q2 hq
        · have hq3 : q2 = (pe.1, pe.2) := by simpa using hq
          subst hq3
          have hnm : pe.1 ∉ rest.map Prod.fst := (List.nodup_cons.mp hnd2).1
          intro hEq
          exact hnm (hEq ▸ List.mem_map_of_mem Prod.fst hp)
      · exact (List.nodup_cons.mp hnd2).2

/-- A compiled leaf clause is never the empty string. -/
theorem compileClause_ne_empty (a k p : String) : compileClause a k p ≠ "" := by
  intro h
  have hl := congrArg String.length h
  simp only [compileClause, String.length_append] at hl
  have e1 : (".`" : String).length = 2 := rfl
  have e2 : ("" : String).length = 0 := rfl
  rw [e1, e2] at hl
  omega

/-- A parenthesized fragment is never the empty string. -/
theorem paren_ne_empty (s : String) : "(" ++ s ++ ")" ≠ "" := by
  intro h
  have hl := congrArg String.length h
  simp only [String.length_append] at hl
  have e1 : ("(" : String).length = 1 := rfl
  have e2 : ("" : String).length = 0 := rfl
  rw [e1, e2] at hl
  omega

/-- A `NOT (...)` wrapper is never the empty string. -/
theorem notWrap_ne_empty (s : String) : "NOT (" ++ s ++ ")" ≠ "" := by
  intro h
  have hl := congrArg String.length h
  simp only [String.length_append] at hl
  have e1 : ("NOT (" : String).length = 5 := rfl
  have e2 : ("" : String).length = 0 := rfl
  rw [e1, e2] at hl
  omega

/-- Joining a non-empty list of non-empty parts with a non-empty separator
is non-empty. -/
theorem joinSep_ne_empty (sep : String) (hsep : 0 < sep.length) :
    ∀ parts : List String, parts ≠ [] → (∀ p ∈ parts, p ≠ "") →
      joinSep sep parts ≠ "" := by
  intro parts
  match parts with
  | [] => intro h; exact absurd rfl h
  | [p] => intro _ hp; simpa [joinSep] using hp p (by simp)
  | p :: q :: tl =>
      intro _ _ h
      have hl := congrArg String.length h
      simp only [joinSep, String.length_append] at hl
      have e2 : ("" : String).length = 0 := rfl
      rw [e2] at hl
      omega

/-- The connector separator is non-empty. -/
theorem connSep_pos (conn : QConnector) : 0 < (" " ++ conn.value ++ " ").length := by
  have e1 : (" " : String).length = 1 := rfl
  simp only [String.length_append, e1]
  omega

/-- The compiler's counter and parameter bookkeeping: processing a child
list advances the shared counter by exactly the number of leaves, the keys
added to the parameter map are exactly `pname` of the counter's range, the
parts list only grows and only by non-empty fragments, and a fragment that
compiles to the empty string holds no leaves. -/
theorem compile_param_spec {α : Type} :
    (∀ (a : String) (ch : List ((String × α) ⊕ Q α)) (parts : List String)
        (params : List (String × α)) (c : Nat),
        (∀ k ∈ params.map Prod.fst, ∃ j, j < c ∧ k = pname j) →
        ((compChildren a ch parts params c).2 = c + leaves ch ∧
         (compChildren a ch parts params c).1.2.map Prod.fst =
           params.map Prod.fst ++ (List.range' c (leaves ch)).map pname ∧
         parts.length ≤ (compChildren a ch parts params c).1.1.length ∧
         (∀ p ∈ (compChildren a ch parts params c).1.1, p ∈ parts ∨ p ≠ "") ∧
         (leaves ch ≠ 0 →
           parts.length < (compChildren a ch parts params c).1.1.length))) ∧
    (∀ (q : Q α) (a : String) (c : Nat),
        (toCypher q a c).2 = c + leafCount q ∧
        (toCypher q a c).1.2.map Prod.fst =
          (List.range' c (leafCount q)).map pname ∧
        ((toCypher q a c).1.1 = "" → leafCount q = 0)) := by
  refine compChildren.mutual_induct
    (motive_1 := fun a ch parts params c =>
      (∀ k ∈ params.map Prod.fst, ∃ j, j < c ∧ k = pname j) →
      ((compChildren a ch parts params c).2 = c + leaves ch ∧
       (compChildren a ch parts params c).1.2.map Prod.fst =
         params.map Prod.fst ++ (List.range' c (leaves ch)).map pname ∧
       parts.length ≤ (compChildren a ch parts params c).1.1.length ∧
       (∀ p ∈ (compChildren a ch parts params c).1.1, p ∈ parts ∨ p ≠ "") ∧
       (leaves ch ≠ 0 →
         parts.length < (compChildren a ch parts params c).1.1.length)))
    (motive_2 := fun q a c =>
      (toCypher q a c).2 = c + leafCount q ∧
      (toCypher q a c).1.2.map Prod.fst =
        (List.range' c (leafCount q)).map pname ∧
      ((toCypher q a c).1.1 = "" → leafCount q = 0))
    ?_ ?_ ?_ ?_ ?_ ?_
  · -- toCypher, empty children
    intro children conn neg a c hemp
    have hch : children = [] := List.isEmpty_iff.mp hemp
    subst hch
    refine ⟨by simp [toCypher, leafCount, leaves],
            by simp [toCypher, leafCount, leaves], fun _ => ?_⟩
    simp [leafCount, leaves]
  · -- toCypher, non-empty children
    intro children conn neg a c hemp ih
    have ihc := ih (by simp)
    obtain ⟨h1, h2, h3, h4, h5⟩ := ihc
    have hteq : toCypher (Q.mk children conn neg) a c =
        ((if neg then
            "NOT (" ++ joinSep (" " ++ conn.value ++ " ")
              (compChildren a children [] [] c).1.1 ++ ")"
          else joinSep (" " ++ conn.value ++ " ")
            (compChildren a children [] [] c).1.1,
          (compChildren a children [] [] c).1.2),
         (compChildren a children [] [] c).2) := by
      simp [toCypher, hemp]
    have hlc : leafCount (Q.mk children conn neg) = leaves children := rfl
    refine ⟨by rw [hteq, hlc]; exact h1, by rw [hteq, hlc]; simpa using h2, ?_⟩
    rw [hteq, hlc]
    intro hz
    cases neg with
    | true => exact absurd hz (notWrap_ne_empty _)
    | false =>
        by_contra hne
        have hlen := h5 hne
        simp only [List.length_nil] at hlen
        have hnil : (compChildren a children [] [] c).1.1 ≠ [] := by
          intro hn
          rw [hn] at hlen
          simp at hlen
        have hall : ∀ p ∈ (compChildren a children [] [] c).1.1, p ≠ "" := by
          intro p hp
          rcases h4 p hp with hin | hok
          · exact absurd hin (List.not_mem_nil p)
          · exact hok
        exact joinSep_ne_empty _ (connSep_pos conn) _ hnil hall hz
  · -- compChildren, nil
    intro a parts params c _hkb
    refine ⟨by simp [compChildren, leaves], by simp [compChildren, leaves],
            by simp [compChildren], ?_, ?_⟩
    · intro p hp
      exact Or.inl (by simpa [compChildren] using hp)
    · intro h
      exact absurd (by simp [leaves]) h
  · -- compChildren, leaf child
    intro a k v rest parts params c ih hkb
    have hfresh : ∀ p ∈ params, p.1 ≠ pname c := by
      intro p hp hEq
      obtain ⟨j, hj, hkj⟩ := hkb p.1 (List.mem_map_of_mem Prod.fst hp)
      have : j = c := pname_inj j c (hkj ▸ hEq)
      omega
    have hset : setItem params (pname c) v = params ++ [(pname c, v)] :=
      setItem_fresh params (pname c) v hfresh
    have hkb2 : ∀ k2 ∈ (setItem params (pname c) v).map Prod.fst,
        ∃ j, j < c + 1 ∧ k2 = pname j := by
      rw [hset]
      intro k2 hk2
      simp only [List.map_append, List.map_cons, List.map_nil,
        List.mem_append, List.mem_singleton] at hk2
      rcases hk2 with hk2 | hk2
      · obtain ⟨j, hj, he⟩ := hkb k2 hk2
        exact ⟨j, by omega, he⟩
      · exact ⟨c, by omega, hk2⟩
    have ihc := ih hkb2
    obtain ⟨i1, i2, i3, i4, i5⟩ := ihc
    have hstep : compChildren a (Sum.inl (k, v) :: rest) parts params c =
        compChildren a rest (parts ++ [compileClause a k (pname c)])
          (setItem params (pname c) v) (c + 1) := by
      simp [compChildren]
    have hlv : leaves (Sum.inl (k, v) :: rest) = 1 + leaves rest := by
      simp [leaves]
    refine ⟨?_, ?_, ?_, ?_, ?_⟩
    · rw [hstep, hlv, i1]
      omega
    · rw [hstep, hlv, i2, hset]
      have hr : List.range' c (1 + leaves rest) =
          c :: List.range' (c + 1) (leaves rest) := by
        rw [Nat.add_comm 1 (leaves rest)]
        exact List.range'_succ c (leaves rest) 1
      rw [hr]
      simp
    · rw [hstep]
      calc parts.length ≤ (parts ++ [compileClause a k (pname c)]).length := by
            simp
        _ ≤ _ := i3
    · rw [hstep]
      intro p hp
      rcases i4 p hp with hin | hok
      · rcases List.mem_append.mp hin with hin2 | hin2
        · exact Or.inl hin2
        · right
          rw [List.mem_singleton.mp hin2]
          exact compileClause_ne_empty a k (pname c)
      · exact Or.inr hok
    · intro _
      rw [hstep]
      calc parts.length < (parts ++ [compileClause a k (pname c)]).length := by
            simp
        _ ≤ _ := i3
  · -- compChildren, nested Q child compiling to the empty fragment
    intro a q rest parts params c r hr ih2 ih1 hkb
    obtain ⟨g1, g2, g3⟩ := ih2
    have hlz : leafCount q = 0 := g3 hr
    have hr2 : r.2 = c := by
      show (toCypher q a c).2 = c
      rw [g1, hlz]
      omega

    have ihc := ih1 (by rw [hr2]; exact hkb)
    obtain ⟨i1, i2, i3, i4, i5⟩ := ihc
    have hr1 : (toCypher q a c).1.1 = "" := hr
    have hstep : compChildren a (Sum.inr q :: rest) parts params c =
        compChildren a rest parts params r.2 := by
      simp [compChildren, hr1]
    have hlv : leaves (Sum.inr q :: rest) = leafCount q + leaves rest := by
      simp [leaves]
    refine ⟨?_, ?_, ?_, ?_, ?_⟩
    · rw [hstep, hlv, i1, hr2, hlz]
      omega
    · rw [hstep, hlv, i2, hr2, hlz]
      simp
    · rw [hstep]; exact i3
    · rw [hstep]; exact i4
    · intro hz
      rw [hstep]
      exact i5 (by omega)
  · -- compChildren, nested Q child compiling to a non-empty fragment
    intro a q rest parts params c r hr ih2 ih1 hkb
    obtain ⟨g1, g2, _⟩ := ih2
    have hr2 : r.2 = c + leafCount q := g1
    have hdisj : ∀ p ∈ r.1.2, ∀ q2 ∈ params, q2.1 ≠ p.1 := by
      intro p hp q2 hq2 hEq
      have hp1 : p.1 ∈ (List.range' c (leafCount q)).map pname := by
        rw [← g2]
        exact List.mem_map_of_mem Prod.fst hp
      obtain ⟨j, hjm, hje⟩ := List.mem_map.mp hp1
      have hjr := List.mem_range'_1.mp hjm
      obtain ⟨j2, hj2, he2⟩ := hkb q2.1 (List.mem_map_of_mem Prod.fst hq2)
      have : j2 = j := pname_inj j2 j (by rw [← he2, hEq, ← hje])
      omega
    have hnodup : (r.1.2.map Prod.fst).Nodup := by
      have : ((toCypher q a c).1.2.map Prod.fst).Nodup := by
        rw [g2]
        exact (List.nodup_range' c (leafCount q)).map
          (fun x y hxy => pname_inj x y hxy)
      exact this
    have hupd : dictUpdate params r.1.2 = params ++ r.1.2 :=
      dictUpdate_fresh r.1.2 params hdisj hnodup
    have hkb2 : ∀ k2 ∈ (dictUpdate params r.1.2).map Prod.fst,
        ∃ j, j < r.2 ∧ k2 = pname j := by
      rw [hupd]
      intro k2 hk2
      rw [List.map_append, List.mem_append] at hk2
      rcases hk2 with hk2 | hk2
      · obtain ⟨j, hj, he⟩ := hkb k2 hk2
        exact ⟨j, by omega, he⟩
      · have hg : k2 ∈ (List.range' c (leafCount q)).map pname := by
          rw [← g2]; exact hk2
        obtain ⟨j, hjm, hje⟩ := List.mem_map.mp hg
        have hjr := List.mem_range'_1.mp hjm
        exact ⟨j, by omega, hje.symm⟩
    have ihc := ih1 hkb2
    obtain ⟨i1, i2, i3, i4, i5⟩ := ihc
    have hstep : compChildren a (Sum.inr q :: rest) parts params c =
        compChildren a rest (parts ++ ["(" ++ r.1.1 ++ ")"])
          (dictUpdate params r.1.2) r.2 := by
      have hr1 : ¬ (toCypher q a c).1.1 = "" := hr
      simp only [compChildren]
      rw [if_neg hr1]
    have hlv : leaves (Sum.inr q :: rest) = leafCount q + leaves rest := by
      simp [leaves]
    refine ⟨?_, ?_, ?_, ?_, ?_⟩
    · rw [hstep, hlv, i1, hr2]
      omega
    · rw [hstep, hlv, i2, hupd, hr2]
      have g2r : List.map Prod.fst r.1.2 =
          List.map pname (List.range' c (leafCount q)) := g2
      rw [List.map_append, List.append_assoc, g2r, ← List.map_append]
      have hrapp : List.range' c (leafCount q) ++
          List.range' (c + leafCount q) (leaves rest) =
          List.range' c (leafCount q + leaves rest) := by
        have h0 := List.range'_append c (leafCount q) (leaves rest) 1
        simp only [Nat.one_mul] at h0
        rw [h0, Nat.add_comm (leaves rest) (leafCount q)]
      rw [hrapp]
    · rw [hstep]
      calc parts.length ≤ (parts ++ ["(" ++ r.1.1 ++ ")"]).length := by simp
        _ ≤ _ := i3
    · rw [hstep]
      intro p hp
      rcases i4 p hp with hin | hok
      · rcases List.mem_append.mp hin with hin2 | hin2
        · exact Or.inl hin2
        · right
          rw [List.mem_singleton.mp hin2]
          exact paren_ne_empty r.1.1
      · exact Or.inr hok
    · intro _
      rw [hstep]
      calc parts.length < (parts ++ ["(" ++ r.1.1 ++ ")"]).length := by simp
        _ ≤ _ := i3

/-- C7: in one compile call each leaf predicate generates exactly one
parameter — the counter advances by the number of leaves, the parameter
map's keys are exactly the `p_<counter>` names of the consumed counter
range, so no two collide (they are pairwise distinct) — and a single-leaf
expression compiles to exactly the one comparison fragment
`alias.field <op> $paramName` that `_compile_clause` renders. -/
theorem to_cypher_unique_params :
    ∀ (q : Q Val) (a : String) (c : Nat),
      (toCypher q a c).2 = c + leafCount q ∧
      (toCypher q a c).1.2.map Prod.fst =
        (List.range' c (leafCount q)).map pname ∧
      ((toCypher q a c).1.2.map Prod.fst).Nodup ∧
      (∀ (k : String) (v : Val) (conn : QConnector),
        toCypher (Q.mk [Sum.inl (k, v)] conn false) a c =
          ((compileClause a k (pname c), [(pname c, v)]), c + 1)) := by
  intro q a c
  obtain ⟨h1, h2, _⟩ := compile_param_spec.2 q a c
  refine ⟨h1, h2, ?_, ?_⟩
  · rw [h2]
    exact (List.nodup_range' c (leafCount q)).map
      (fun x y hxy => pname_inj x y hxy)
  · intro k v conn
    have hs : setItem ([] : List (String × Val)) (pname c) v = [(pname c, v)] :=
      setItem_fresh [] (pname c) v (by simp)
    simp [toCypher, compChildren, joinSep, hs]

/-! ### C3 — hydration errors and success -/

/-- A record holding a relationship key whose declared target label is not
registered makes the item loop fail (possibly with an earlier entry's
error, but it never succeeds). -/
theorem hEntries_error_of_unregistered :
    ∀ (reg : Registry) (model : Model) (nd : List (String × Val)) (key : String)
      (v : Val) (descr : RelDescr),
      (key, v) ∈ nd → key ≠ "_internal_id" →
      relGet model key = some descr →
      regGet reg descr.targetNodeLabel = none →
      ∃ e, hEntries reg model nd = .error e := by
  intro reg model nd
  induction nd with
  | nil =>
      intro key v descr hmem
      exact absurd hmem (List.not_mem_nil (key, v))
  | cons p rest ih =>
      intro key v descr hmem hki hrel hreg
      obtain ⟨k0, v0⟩ := p
      by_cases hid : k0 = "_internal_id"
      · have hm2 : (key, v) ∈ rest := by
          rcases List.mem_cons.mp hmem with he | hm
          · exfalso
            injection he with h1 _
            exact hki (h1.trans hid)
          · exact hm
        obtain ⟨e, he⟩ := ih key v descr hm2 hki hrel hreg
        exact ⟨e, by simp [hEntries, hid, he]⟩
      · cases hrel0 : relGet model k0 with
        | none =>
            have hm2 : (key, v) ∈ rest := by
              rcases List.mem_cons.mp hmem with he | hm
              · exfalso
                injection he with h1 _
                rw [h1] at hrel
                rw [hrel0] at hrel
                cases hrel
              · exact hm
            obtain ⟨e, he⟩ := ih key v descr hm2 hki hrel hreg
            exact ⟨e, by simp [hEntries, hid, hrel0, he]⟩
        | some d0 =>
            cases hreg0 : regGet reg d0.targetNodeLabel with
            | none =>
                exact ⟨"Nie znaleziono modelu dla etykiety '" ++
                  d0.targetNodeLabel ++ "'",
                  by simp [hEntries, hid, hrel0, hreg0]⟩
            | some tm =>
                have hm2 : (key, v) ∈ rest := by
                  rcases List.mem_cons.mp hmem with he | hm
                  · exfalso
                    injection he with h1 _
                    rw [h1, hrel0] at hrel
                    injection hrel with h2
                    rw [h2] at hreg0
                    rw [hreg0] at hreg
                    cases hreg
                  · exact hm
                obtain ⟨e, he⟩ := ih key v descr hm2 hki hrel hreg
                cases v0 with
                | vlist entries =>
                    cases hrl : hRelList reg tm d0.hasEdgeModel entries with
                    | error e2 =>
                        exact ⟨e2, by simp [hEntries, hid, hrel0, hreg0, hrl]⟩
                    | ok pairs =>
                        exact ⟨e, by simp [hEntries, hid, hrel0, hreg0, hrl, he]⟩
                | prim s =>
                    exact ⟨"wartość relacji nie jest listą",
                      by simp [hEntries, hid, hrel0, hreg0]⟩
                | vnull =>
                    exact ⟨"wartość relacji nie jest listą",
                      by simp [hEntries, hid, hrel0, hreg0]⟩
                | vobj kvs =>
                    exact ⟨"wartość relacji nie jest listą",
                      by simp [hEntries, hid, hrel0, hreg0]⟩

/-- Unfolding: an element whose `"node"` entry is absent is skipped. -/
theorem hRelList_cons_none (reg : Registry) (target : Model) (hem : Bool)
    (kvs : List (String × Val)) (rest : List Val)
    (hn : dGet kvs "node" = none) :
    hRelList reg target hem (Val.vobj kvs :: rest) =
      hRelList reg target hem rest := by
  simp only [hRelList]
  split
  · rfl
  · rename_i nested heq
    rw [hn] at heq
    cases heq

/-- Unfolding: an element whose `"node"` entry is falsy is skipped. -/
theorem hRelList_cons_skip (reg : Registry) (target : Model) (hem : Bool)
    (kvs : List (String × Val)) (rest : List Val) (nested : Val)
    (hn : dGet kvs "node" = some nested) (ht : nested.truthy = false) :
    hRelList reg target hem (Val.vobj kvs :: rest) =
      hRelList reg target hem rest := by
  simp only [hRelList]
  split
  · rfl
  · rename_i nested2 heq
    rw [hn] at heq
    injection heq with h2
    subst h2
    rw [if_neg (by simp [ht])]

/-- Unfolding: an element with a truthy map `"node"` hydrates the nested
node, validates the edge properties, and conses the pair. -/
theorem hRelList_cons_node (reg : Registry) (target : Model) (hem : Bool)
    (kvs : List (String × Val)) (rest : List Val)
    (nkvs : List (String × Val)) (node : HydratedNode) (props : Val)
    (y : List (HydratedNode × Val))
    (hn : dGet kvs "node" = some (Val.vobj nkvs))
    (ht : (Val.vobj nkvs).truthy = true)
    (hhyd : hydrateRecursive reg target nkvs = .ok node)
    (hedge : (if hem then edgeValidate ((dGet kvs "rel").getD (.vobj []))
              else .ok ((dGet kvs "rel").getD (.vobj []))) = .ok props)
    (hrest : hRelList reg target hem rest = .ok y) :
    hRelList reg target hem (Val.vobj kvs :: rest) =
      .ok ((node, props) :: y) := by
  simp only [hRelList]
  split
  · rename_i heq
    rw [hn] at heq
    cases heq
  · rename_i nested2 heq
    rw [hn] at heq
    injection heq with h2
    subst h2
    rw [if_pos ht]
    simp only [hhyd, hedge, hrest]

/-- Well-formed inputs hydrate without error (item loop and relation-list
loop, by mutual induction along the well-formedness analysis). -/
theorem wf_hydrate_ok :
    ∀ (reg : Registry),
      (∀ (model : Model) (nd : List (String × Val)),
        wfData reg model nd = true → ∃ x, hEntries reg model nd = .ok x) ∧
      (∀ (target : Model) (hem : Bool) (l : List Val),
        wfRelList reg target hem l = true →
        ∃ y, hRelList reg target hem l = .ok y) := by
  intro reg
  refine wfData.mutual_induct reg
    (fun model nd =>
      wfData reg model nd = true → ∃ x, hEntries reg model nd = .ok x)
    (fun target hem l =>
      wfRelList reg target hem l = true → ∃ y, hRelList reg target hem l = .ok y)
    ?_ ?_ ?_ ?_ ?_ ?_ ?_ ?_ ?_
  · intro model _
    exact ⟨([], []), by simp [hEntries]⟩
  · intro model v rest ih hwf
    simp only [wfData, if_true] at hwf
    obtain ⟨x, hx⟩ := ih hwf
    exact ⟨x, by simp [hEntries, hx]⟩
  · intro model k v rest hk descr hrel hreg hwf
    exfalso
    simp [wfData, hk, hrel, hreg] at hwf
  · intro model k rest hk descr hrel targetModel hreg entries ih2 ih1 hwf
    simp only [wfData, hk, hrel, hreg, if_false, if_true, if_neg hk] at hwf
    rw [Bool.and_eq_true] at hwf
    obtain ⟨hw1, hw2⟩ := hwf
    obtain ⟨y, hy⟩ := ih2 hw1
    obtain ⟨⟨f, rls⟩, hx⟩ := ih1 hw2
    exact ⟨(f, (descr.privateName, y) :: rls),
      by simp [hEntries, hk, hrel, hreg, hy, hx]⟩
  · intro model k v rest hk descr hrel targetModel hreg hnl hwf
    exfalso
    cases v with
    | vlist entries => exact hnl entries rfl
    | prim s => simp [wfData, hk, hrel, hreg] at hwf
    | vnull => simp [wfData, hk, hrel, hreg] at hwf
    | vobj kvs => simp [wfData, hk, hrel, hreg] at hwf
  · intro model k v rest hk hrel ih hwf
    simp only [wfData, hk, hrel, if_false, if_true, if_neg hk] at hwf
    obtain ⟨⟨f, rls⟩, hx⟩ := ih hwf
    exact ⟨((k, v) :: f, rls), by simp [hEntries, hk, hrel, hx]⟩
  · intro target hem _
    exact ⟨[], by simp [hRelList]⟩
  · intro target hem rest kvs ihn ihr hwf
    simp only [wfRelList] at hwf
    rw [Bool.and_eq_true] at hwf
    obtain ⟨hw1, hw2⟩ := hwf
    obtain ⟨y, hy⟩ := ihr hw2
    split at hw1
    · rename_i heq
      exact ⟨y, by rw [hRelList_cons_none reg target hem kvs rest heq, hy]⟩
    · rename_i nested heq
      cases htr : nested.truthy with
      | false =>
          exact ⟨y, by
            rw [hRelList_cons_skip reg target hem kvs rest nested heq htr, hy]⟩
      | true =>
          rw [if_pos htr] at hw1
          cases nested with
          | prim s => simp at hw1
          | vnull => simp at hw1
          | vlist l => simp at hw1
          | vobj nkvs =>
              rw [Bool.and_eq_true] at hw1
              obtain ⟨hd, hedge⟩ := hw1
              obtain ⟨⟨f, rls⟩, hx⟩ := ihn nkvs heq hd
              have hhyd : hydrateRecursive reg target nkvs =
                  .ok (.mk (convertTemporalsEntries f)
                    (match dGet nkvs "_internal_id" with
                     | some v2 => if v2.truthy then some v2 else none
                     | none => none) rls) := by
                simp [hydrateRecursive, hx]
              cases hem with
              | false =>
                  exact ⟨_, hRelList_cons_node reg target false kvs rest nkvs
                    _ _ y heq htr hhyd rfl hy⟩
              | true =>
                  rw [if_pos rfl] at hedge
                  have hobj : ∃ kvs2,
                      (dGet kvs "rel").getD (.vobj []) = .vobj kvs2 := by
                    cases hv : (dGet kvs "rel").getD (.vobj []) with
                    | vobj kvs2 => exact ⟨kvs2, rfl⟩
                    | prim s => rw [hv] at hedge; simp at hedge
                    | vnull => rw [hv] at hedge; simp at hedge
                    | vlist l => rw [hv] at hedge; simp at hedge
                  obtain ⟨kvs2, hv⟩ := hobj
                  have hed : (if (true : Bool) then
                        edgeValidate ((dGet kvs "rel").getD (.vobj []))
                      else .ok ((dGet kvs "rel").getD (.vobj []))) =
                      .ok (Val.vobj kvs2) := by
                    rw [if_pos rfl, hv]
                    rfl
                  exact ⟨_, hRelList_cons_node reg target true kvs rest nkvs
                    _ _ y heq htr hhyd hed hy⟩
  · intro target hem v rest hnobj hwf
    exfalso
    cases v with
    | vobj kvs => exact hnobj kvs rfl
    | prim s => simp [wfRelList] at hwf
    | vnull => simp [wfRelList] at hwf
    | vlist l => simp [wfRelList] at hwf

/-- C3: a record missing the `"node"` sub-record or the `"internal_id"` key
makes the top-level hydrator raise the malformed-record error; a
relationship name present in a record whose declared target label is not
registered aborts the recursive hydrator with an error; and well-formed
records hydrate successfully (recursively, and at the top level). -/
theorem hydration_errors_and_success :
    (∀ (record : List (String × Val)),
        dGet record "node" = none ∨ dGet record "internal_id" = none →
        hydrateNode record = .error hydrateStructureMsg) ∧
    (∀ (reg : Registry) (model : Model) (nd : List (String × Val))
        (key : String) (v : Val) (descr : RelDescr),
        (key, v) ∈ nd → key ≠ "_internal_id" →
        relGet model key = some descr →
        regGet reg descr.targetNodeLabel = none →
        ∃ e, hydrateRecursive reg model nd = .error e) ∧
    (∀ (reg : Registry) (model : Model) (nd : List (String × Val)),
        wfData reg model nd = true →
        ∃ node, hydrateRecursive reg model nd = .ok node) ∧
    (∀ (record : List (String × Val)) (fieldsv : List (String × Val))
        (iid : Val),
        dGet record "node" = some (.vobj fieldsv) →
        dGet record "internal_id" = some iid →
        hydrateNode record = .ok (.mk fieldsv (some iid) [])) := by
  refine ⟨?_, ?_, ?_, ?_⟩
  · intro record h
    rcases h with h | h
    · cases h2 : dGet record "internal_id" <;> simp [hydrateNode, h, h2]
    · cases h1 : dGet record "node" <;> simp [hydrateNode, h, h1]
  · intro reg model nd key v descr hmem hki hrel hreg
    obtain ⟨e, he⟩ := hEntries_error_of_unregistered reg model nd key v descr
      hmem hki hrel hreg
    exact ⟨e, by simp [hydrateRecursive, he]⟩
  · intro reg model nd hwf
    obtain ⟨⟨f, rls⟩, hx⟩ := (wf_hydrate_ok reg).1 model nd hwf
    refine ⟨HydratedNode.mk (convertTemporalsEntries f)
        (match dGet nd "_internal_id" with
         | some v => if v.truthy then some v else none
         | none => none) rls, ?_⟩
    simp [hydrateRecursive, hx]
  · intro record fieldsv iid h1 h2
    simp [hydrateNode, h1, h2, modelValidate]

set_option maxRecDepth 10000 in
/-- The concrete nested record used below is well formed. -/
theorem wf_witness_input :
    wfData [("Company", Model.mk "Company" [])]
      (Model.mk "Person"
        [("works_at", RelDescr.mk "WORK_AT" "Company" "_works_at" false)])
      [("name", Val.prim "Alice"), ("_internal_id", Val.prim "4:abc"),
       ("works_at", Val.vlist
         [Val.vobj [("node", Val.vobj [("name", Val.prim "Neo4j"),
                      ("_internal_id", Val.prim "4:c1")]),
                    ("rel", Val.vobj [("role", Val.prim "Engineer")])]])] =
      true := by
  have hinner : wfData [("Company", Model.mk "Company" [])]
      (Model.mk "Company" [])
      [("name", Val.prim "Neo4j"), ("_internal_id", Val.prim "4:c1")] =
      true := by
    simp [wfData, relGet]
  have hd : dGet [("node", Val.vobj [("name", Val.prim "Neo4j"),
                    ("_internal_id", Val.prim "4:c1")]),
                  ("rel", Val.vobj [("role", Val.prim "Engineer")])] "node" =
      some (Val.vobj [("name", Val.prim "Neo4j"),
                      ("_internal_id", Val.prim "4:c1")]) := rfl
  have hlist : wfRelList [("Company", Model.mk "Company" [])]
      (Model.mk "Company" []) false
      [Val.vobj [("node", Val.vobj [("name", Val.prim "Neo4j"),
                   ("_internal_id", Val.prim "4:c1")]),
                 ("rel", Val.vobj [("role", Val.prim "Engineer")])]] =
      true := by
    simp only [wfRelList]
    split
    · rename_i heq
      rw [hd] at heq
      cases heq
    · rename_i nested heq
      rw [hd] at heq
      injection heq with h2
      subst h2
      simp [Val.truthy, hinner]
  simp [wfData, relGet, regGet, hlist]

/-- C3 witness: a record with no keys raises the malformed-record error; a
relationship whose target label is unregistered aborts hydration; a
well-formed nested record (one relationship, one related node with edge
properties) hydrates successfully, as does a well-formed flat record. -/
theorem hydration_errors_and_success_witness :
    hydrateNode [] = .error hydrateStructureMsg ∧
    (∃ e, hydrateRecursive []
        ⟨"Person", [("works_at", ⟨"WORK_AT", "Company", "_works_at", true⟩)]⟩
        [("works_at", Val.vlist [])] = .error e) ∧
    (∃ node, hydrateRecursive [("Company", ⟨"Company", []⟩)]
        ⟨"Person", [("works_at", ⟨"WORK_AT", "Company", "_works_at", false⟩)]⟩
        [("name", Val.prim "Alice"), ("_internal_id", Val.prim "4:abc"),
         ("works_at", Val.vlist
           [Val.vobj [("node", Val.vobj [("name", Val.prim "Neo4j"),
                        ("_internal_id", Val.prim "4:c1")]),
                      ("rel", Val.vobj [("role", Val.prim "Engineer")])]])] =
        .ok node) ∧
    hydrateNode [("node", Val.vobj [("name", Val.prim "Bob")]),
                 ("internal_id", Val.prim "4:b1")] =
      .ok (.mk [("name", Val.prim "Bob")] (some (Val.prim "4:b1")) []) := by
  refine ⟨?_, ?_, ?_, ?_⟩
  · exact hydration_errors_and_success.1 [] (Or.inl rfl)
  · exact hydration_errors_and_success.2.1 []
      ⟨"Person", [("works_at", ⟨"WORK_AT", "Company", "_works_at", true⟩)]⟩
      [("works_at", Val.vlist [])] "works_at" (Val.vlist [])
      ⟨"WORK_AT", "Company", "_works_at", true⟩ (by simp) (by decide) rfl rfl
  · exact hydration_errors_and_success.2.2.1
      [("Company", ⟨"Company", []⟩)]
      ⟨"Person", [("works_at", ⟨"WORK_AT", "Company", "_works_at", false⟩)]⟩
      _ wf_witness_input
  · exact hydration_errors_and_success.2.2.2
      [("node", Val.vobj [("name", Val.prim "Bob")]),
       ("internal_id", Val.prim "4:b1")]
      [("name", Val.prim "Bob")] (Val.prim "4:b1") rfl rfl

end Node4j
